import Mathlib

/-!
Verification of the BYGUpdateTool update/download/extract logic (`main.py`)
against its specification.

The Python source is shallowly embedded: the two download worker classes
(`Updater`, `APIUpdater`), the two release checkers (`UpdateChecker`,
`APIUpdateChecker`) and the folder-name sanitisation are translated into pure
Lean functions.  Network and filesystem interaction is made explicit: each
worker run consumes an environment (the HTTP responses the network would
serve, an oracle for `zipfile.is_zipfile`, the entry list of the downloaded
archive) and an initial filesystem state, and produces the ordered list of
observable events (requests issued, bytes written, progress signals, directory
operations, error/finished signals) together with the final filesystem state.

Python's float expression `int((downloaded / total_length) * 100)` is modelled
faithfully under IEEE-754 binary64 semantics (`pyProgress`): a correctly
rounded (round-to-nearest, ties-to-even) division of the two integers, a
correctly rounded multiplication by 100, then truncation toward zero, with
gradual underflow to subnormals; only overflow to infinity (quotients at or
above `2^1024`, unreachable here) is outside the model.  This differs from
the exact floor `downloaded * 100 / total_length` at realizable inputs:
at `total_length = 100`, a 29-byte prefix yields `int(0.29 * 100) = 28`
while the exact floor is 29.  Machine integers do not overflow in the
source's ranges, so plain `Nat` is used for them throughout.
-/

/-- The characters the source replaces in folder names:
the regex class `[\\/:"*?<>|]` at main.py:137 / main.py:246. -/
def illegalChars : List Char := ['\\', '/', ':', '"', '*', '?', '<', '>', '|']

/-- Whether a character belongs to the sanitised class. -/
def isIllegal (c : Char) : Bool := illegalChars.contains c

/-- Model of `re.sub(r'[\\/:"*?<>|]+', "_", s)` (main.py:137): each maximal
run of characters from the class is replaced by a single underscore.  The
scan carries a flag recording whether the previous character belonged to the
class, so an illegal character extends the current run (emitting nothing)
instead of emitting a second underscore — exactly the `+` quantifier of the
regex. -/
def reSubAux : Bool → List Char → List Char
  | _, [] => []
  | inRun, c :: cs =>
    if isIllegal c then
      if inRun then reSubAux true cs
      else '_' :: reSubAux true cs
    else c :: reSubAux false cs

/-- The full substitution of main.py:137: no run is open at the start. -/
def reSubRuns (l : List Char) : List Char := reSubAux false l

/-- Index of the last occurrence of `c` in `p`, if any. -/
def lastIndexOf (c : Char) (p : List Char) : Option Nat :=
  match p.reverse.findIdx? (fun x => x == c) with
  | some i => some (p.length - 1 - i)
  | none => none

/-- Model of `os.path.splitext(p)[0]` (posixpath semantics, main.py:136):
the extension starts at the last dot, provided that dot lies after the last
path separator and at least one non-dot character precedes it within the
basename (so names consisting only of leading dots keep their "extension"). -/
def splitextRoot (p : List Char) : List Char :=
  match lastIndexOf '.' p with
  | none => p
  | some di =>
    let start := match lastIndexOf '/' p with
      | some si => si + 1
      | none => 0
    if start ≤ di then
      if ((p.drop start).take (di - start)).any (fun x => !(x == '.')) then
        p.take di
      else p
    else p

/-- `safe_folder_name` as computed at main.py:136-137 / main.py:245-246:
strip the extension, then collapse every run of illegal characters to `_`. -/
def safe_folder_name (assetName : String) : String :=
  String.mk (reSubRuns (splitextRoot assetName.toList))

/-- The spec's literal reading of the sanitisation ("replacing each of the
characters ... with an underscore"): a character-by-character substitution
that keeps one underscore per illegal character. -/
def specSafeNamePerChar (assetName : String) : String :=
  String.mk ((splitextRoot assetName.toList).map (fun c => if isIllegal c then '_' else c))

/-- Run-collapsing substitution phrased as the amended specification reads:
on meeting a character of the class, emit one underscore and skip the whole
remaining block of class characters (`dropWhile`), so each maximal run
yields exactly one underscore. -/
def specCollapseRuns : List Char → List Char
  | [] => []
  | c :: cs =>
    if isIllegal c then
      '_' :: specCollapseRuns (cs.dropWhile (fun x => isIllegal x))
    else c :: specCollapseRuns cs
termination_by l => l.length
decreasing_by
  · simp only [List.length_cons]
    refine Nat.lt_succ_of_le ?_
    induction cs with
    | nil => simp [List.dropWhile]
    | cons a l ih =>
      simp only [List.dropWhile]
      cases isIllegal a
      · simp
      · exact Nat.le_succ_of_le ih
  · simp only [List.length_cons]
    exact Nat.lt_succ_self _

/-- Amended-specification sanitiser: extension stripped, then each maximal
run of the characters `\ / : " * ? < > |` replaced by a single underscore. -/
def specSafeNameRuns (assetName : String) : String :=
  String.mk (specCollapseRuns (splitextRoot assetName.toList))

/-- Model of `os.path.join(a, b)` for the shapes used by the source
(posixpath semantics). -/
def osJoin (a b : String) : String :=
  if b.toList.head? = some '/' then b
  else if a = "" then b
  else if a.toList.getLast? = some '/' then a ++ b
  else a ++ "/" ++ b

/-- `folder_path` as computed at main.py:138 / main.py:247. -/
def folder_path (extractPath assetName : String) : String :=
  osJoin extractPath (safe_folder_name assetName)

/-- Substring containment, modelling Python's `in` operator on strings
(main.py:111 / main.py:220). -/
def strContains (hay needle : String) : Bool :=
  decide (List.IsInfix needle.toList hay.toList)

/-- The content-type acceptance test of main.py:111 / main.py:220:
the header value must contain `application/zip` or `application/octet-stream`
as a substring. -/
def contentTypeOk (ct : String) : Bool :=
  strContains ct "application/zip" || strContains ct "application/octet-stream"

/-- An HTTP response as the workers observe it: status code, the `Location`
header (if any), the `Content-Type` header (empty string when absent, the
`.get('Content-Type', '')` default), the parsed `content-length` (0 when the
header is absent, the `int(headers.get("content-length", 0))` default), and
the sizes of the body chunks yielded by `iter_content(chunk_size=8192)`. -/
structure HttpResponse where
  status : Nat
  location : Option String
  contentType : String
  contentLength : Nat
  chunks : List Nat

/-- The errors a download worker can signal. -/
inductive DlError where
  | httpStatus (code : Nat)
  | redirectNoLocation
  | contentMismatch (ct : String)
  | corruptArchive
deriving DecidableEq

/-- Observable events of a download worker run, in program order:
`getReq url allowRedirects` is a `session.get` call (the flag records whether
the HTTP library's automatic redirect following is left enabled),
`fileOpen`/`fileWrite` are the temp-file writes, `progressEmit` is the
`progress` signal, `rmTargetDir`/`mkTargetDir`/`extractAll` are the
`shutil.rmtree`/`os.makedirs`/`ZipFile.extractall` calls on the target
folder, and `errorEmit`/`finishedEmit` are the terminal signals. -/
inductive Ev where
  | getReq (url : String) (allowRedirects : Bool)
  | fileOpen
  | fileWrite (n : Nat)
  | progressEmit (p : Nat)
  | rmTargetDir
  | mkTargetDir
  | extractAll
  | errorEmit (e : DlError)
  | finishedEmit (ok : Bool)
deriving DecidableEq

/-- Filesystem state as far as one worker run touches it: the temp file
named after the asset (chunk sizes written to it, `none` when absent) and
the contents of the derived target folder (`none` when the folder does not
exist). -/
structure FsState where
  tempFile : Option (List Nat)
  targetDir : Option (List String)
deriving DecidableEq

/-- Result of one worker run: the event trace and the final filesystem. -/
structure RunResult where
  events : List Ev
  fs : FsState
deriving DecidableEq

/-- A worker's environment: the response served to its first `session.get`,
the (post-library-redirect-resolution) response served to a `session.get` of
a redirect location, the `zipfile.is_zipfile` verdict on the written temp
file, and the entries `ZipFile.extractall` would place in the target. -/
structure DownloadEnv where
  resp1 : HttpResponse
  resp2 : String → HttpResponse
  isZip : List Nat → Bool
  archiveEntries : List String

/-- `response.raise_for_status()` raises exactly for status codes 400-599. -/
def raisesForStatus (s : Nat) : Prop := 400 ≤ s ∧ s ≤ 599

instance (s : Nat) : Decidable (raisesForStatus s) := by
  unfold raisesForStatus; infer_instance

/-- The redirect statuses handled at main.py:95. -/
def redirectCodes : List Nat := [301, 302, 303, 307, 308]

/-- Fuel-driven floor of `log₂`: halve `n` until it drops below 2, counting
the steps.  Structural recursion on the fuel keeps it kernel-computable. -/
def log2Aux : Nat → Nat → Nat
  | 0, _ => 0
  | fuel + 1, n => if 2 ≤ n then log2Aux fuel (n / 2) + 1 else 0

/-- `⌊log₂ n⌋` for `n ≥ 1` (and 0 at 0); `n` itself is enough fuel. -/
def log2floor (n : Nat) : Nat := log2Aux n n

/-- `⌊log₂ (a/b)⌋` for a positive fraction: scale `a` by `2^N` with
`2^N > b` so the integer quotient is at least 1, take its `log2floor`, then
undo the scaling. -/
def floorLog2 (a b : Nat) : Int :=
  (log2floor ((a * 2 ^ (log2floor b + 1)) / b) : Int) -
    ((log2floor b + 1 : Nat) : Int)

/-- Round `num / den` to the nearest integer, ties to even. -/
def rnd (num den : Nat) : Nat :=
  let n := num / den
  let r := num % den
  if 2 * r < den then n
  else if den < 2 * r then n + 1
  else if n % 2 = 0 then n else n + 1

/-- The fraction `(a/b) · 2^(-q)` as a numerator/denominator pair. -/
def scaledFrac (a b : Nat) (q : Int) : Nat × Nat :=
  if q ≤ 0 then (a * 2 ^ (-q).toNat, b) else (a, b * 2 ^ q.toNat)

/-- Correctly rounded (round-to-nearest, ties-to-even) IEEE-754 binary64
value of `a / b`, as a dyadic pair `(m, e)` of value `m · 2^e`: the quantum
exponent is `⌊log₂(a/b)⌋ - 52`, clamped below at `-1074` (subnormal range),
and the mantissa is `a/b` scaled by the inverse quantum and rounded to the
nearest integer, ties to even.  Overflow to infinity is not modelled: it
would need `a/b ≥ 2^1024`, unreachable in the ranges the program computes
progress over. -/
def rneFrac (a b : Nat) : Nat × Int :=
  if a = 0 then (0, 0)
  else
    let q := max (floorLog2 a b - 52) (-1074)
    (rnd (scaledFrac a b q).1 (scaledFrac a b q).2, q)

/-- A dyadic pair as a fraction: numerator and positive denominator. -/
def dyFrac (p : Nat × Int) : Nat × Nat :=
  if 0 ≤ p.2 then (p.1 * 2 ^ p.2.toNat, 1) else (p.1, 2 ^ (-p.2).toNat)

/-- Truncation toward zero of a (nonnegative) dyadic value — Python's
`int(...)` applied to a nonnegative float. -/
def dyTrunc (p : Nat × Int) : Nat :=
  if 0 ≤ p.2 then p.1 * 2 ^ p.2.toNat else p.1 / 2 ^ (-p.2).toNat

/-- The rational value of a dyadic pair, used in specifications only. -/
def dyVal (p : Nat × Int) : ℚ :=
  if 0 ≤ p.2 then (p.1 : ℚ) * 2 ^ p.2.toNat else (p.1 : ℚ) / 2 ^ (-p.2).toNat

/-- The progress value the program computes at main.py:126 / main.py:235:
`int((downloaded / total_length) * 100)` under IEEE-754 binary64 arithmetic:
a correctly rounded division `downloaded / total_length` (CPython divides
the two integers directly to a correctly rounded double), a correctly
rounded multiplication by 100, then truncation toward zero. -/
def pyProgress (d t : Nat) : Nat :=
  let v1 := rneFrac d t
  let f2 := dyFrac (100 * v1.1, v1.2)
  dyTrunc (rneFrac f2.1 f2.2)

/-- The download loop of main.py:120-128 / main.py:229-237: for each chunk,
skip it if empty, otherwise write it, add its size to `downloaded` and emit
`int((downloaded / total) * 100)` — binary64 semantics, `pyProgress` — when
`total > 0`, else emit `0`.  Returns the events of the loop and the chunk
sizes written to the temp file. -/
def writeChunks (total : Nat) : List Nat → Nat → List Ev × List Nat
  | [], _ => ([], [])
  | c :: cs, downloaded =>
    if c = 0 then writeChunks total cs downloaded
    else
      let d := downloaded + c
      let p := if 0 < total then pyProgress d total else 0
      let r := writeChunks total cs d
      (Ev.fileWrite c :: Ev.progressEmit p :: r.1, c :: r.2)

/-- The shared tail of both workers, from the content-type check
(main.py:110-146 / main.py:219-255): validate the content-type, stream the
body to the temp file with progress signals, check `zipfile.is_zipfile`,
then replace the target folder (remove it first when it exists) and extract
into it. -/
def afterResponse (env : DownloadEnv) (resp : HttpResponse) (pre : List Ev)
    (fs0 : FsState) : RunResult :=
  if contentTypeOk resp.contentType then
    let total := resp.contentLength
    let w := writeChunks total resp.chunks 0
    let fs1 : FsState := ⟨some w.2, fs0.targetDir⟩
    let pre2 := pre ++ Ev.fileOpen :: w.1
    if env.isZip w.2 then
      let dirEvs := if fs0.targetDir.isSome then [Ev.rmTargetDir, Ev.mkTargetDir]
        else [Ev.mkTargetDir]
      ⟨pre2 ++ dirEvs ++ [Ev.extractAll, Ev.finishedEmit true],
       ⟨fs1.tempFile, some env.archiveEntries⟩⟩
    else
      ⟨pre2 ++ [Ev.errorEmit DlError.corruptArchive, Ev.finishedEmit false], fs1⟩
  else
    ⟨pre ++ [Ev.errorEmit (DlError.contentMismatch resp.contentType),
             Ev.finishedEmit false], fs0⟩

/-- `Updater.run` (main.py:83-151): first GET with redirect following
disabled; on a redirect status read `Location` (absent is fatal), issue one
more `session.get` to it (library redirect following left at its default,
i.e. enabled) and `raise_for_status` it; on a non-redirect status,
`raise_for_status` directly; then the shared download/verify/extract tail.
A raised `requests` exception is caught and reported as error + finished
false. -/
def Updater.run (env : DownloadEnv) (downloadUrl : String) (fs0 : FsState) :
    RunResult :=
  let r1 := env.resp1
  if r1.status ∈ redirectCodes then
    match r1.location with
    | some loc =>
      let r2 := env.resp2 loc
      let pre := [Ev.getReq downloadUrl false, Ev.getReq loc true]
      if raisesForStatus r2.status then
        ⟨pre ++ [Ev.errorEmit (DlError.httpStatus r2.status),
                 Ev.finishedEmit false], fs0⟩
      else
        afterResponse env r2 pre fs0
    | none =>
      ⟨[Ev.getReq downloadUrl false, Ev.errorEmit DlError.redirectNoLocation,
        Ev.finishedEmit false], fs0⟩
  else
    if raisesForStatus r1.status then
      ⟨[Ev.getReq downloadUrl false, Ev.errorEmit (DlError.httpStatus r1.status),
        Ev.finishedEmit false], fs0⟩
    else
      afterResponse env r1 [Ev.getReq downloadUrl false] fs0

/-- `APIUpdater.run` (main.py:208-260): one GET with the library's default
redirect following, `raise_for_status`, then the same shared tail. -/
def APIUpdater.run (env : DownloadEnv) (downloadUrl : String) (fs0 : FsState) :
    RunResult :=
  let r := env.resp1
  if raisesForStatus r.status then
    ⟨[Ev.getReq downloadUrl true, Ev.errorEmit (DlError.httpStatus r.status),
      Ev.finishedEmit false], fs0⟩
  else
    afterResponse env r [Ev.getReq downloadUrl true] fs0

/-- The progress values of a trace, in emission order. -/
def progOf (evs : List Ev) : List Nat :=
  evs.filterMap (fun e => match e with
    | Ev.progressEmit p => some p
    | _ => none)

/-- The `session.get` calls of a trace: (url, redirect following enabled). -/
def getReqsOf (evs : List Ev) : List (String × Bool) :=
  evs.filterMap (fun e => match e with
    | Ev.getReq u b => some (u, b)
    | _ => none)

/-- Running totals of bytes written after each written (nonempty) chunk,
starting from `d` bytes already written. -/
def bytesSums (d : Nat) : List Nat → List Nat
  | [] => []
  | c :: cs => if c = 0 then bytesSums d cs else (d + c) :: bytesSums (d + c) cs

/-- A hosted-provider (GitHub) release asset as consumed by the tool
(`assets[].name`, `assets[].browser_download_url`). -/
structure GhAsset where
  name : String
  browser_download_url : String
deriving DecidableEq

/-- A hosted-provider release entry as consumed by the tool
(`tag_name`, `body`, `assets`). -/
structure GhRelease where
  tag_name : String
  body : String
  assets : List GhAsset
deriving DecidableEq

/-- Events emitted by the hosted-releases checker thread. -/
inductive CheckerEv where
  | releasesFetched (rs : List GhRelease)
  | errorOccurred (msg : String)
deriving DecidableEq

/-- `UpdateChecker.run` (main.py:42-58): one GET of the releases list,
`raise_for_status`, then the parsed list is emitted unmodified; a raised
`requests` exception is reported as an error message.  The abstract message
stands for the formatted exception text. -/
def UpdateChecker.run (status : Nat) (releases : List GhRelease) :
    List CheckerEv :=
  if raisesForStatus status then
    [CheckerEv.errorOccurred "获取更新信息时出错"]
  else
    [CheckerEv.releasesFetched releases]

/-- A version-history API file descriptor (`releaseFile` entry). -/
structure ApiAsset where
  platform : String
  size : String
  downloadUrl : String
deriving DecidableEq

/-- A version-history API release entry (`result` entry). -/
structure ApiRelease where
  versionName : String
  author : String
  commit : String
  createTime : String
  releaseFile : List ApiAsset
deriving DecidableEq

/-- The version-history API JSON envelope
`{success: bool, result: [...], message: string}`; `result` and `message`
are optional fields read with `.get`. -/
structure ApiEnvelope where
  success : Bool
  result : Option (List ApiRelease)
  message : Option String
deriving DecidableEq

/-- Events emitted by the version-history checker thread. -/
inductive ApiCheckerEv where
  | releasesFetched (rs : List ApiRelease)
  | errorOccurred (msg : String)
deriving DecidableEq

/-- `APIUpdateChecker.run` (main.py:169-185): one GET of the history
endpoint, `raise_for_status`, then on a truthy `success` flag the `result`
list (default `[]`) is emitted; otherwise the envelope's `message` (default
`"未知错误"`) is emitted as the error.  The abstract transport-error message
stands for the formatted exception text. -/
def APIUpdateChecker.run (status : Nat) (data : ApiEnvelope) :
    List ApiCheckerEv :=
  if raisesForStatus status then
    [ApiCheckerEv.errorOccurred "获取更新信息时出错"]
  else if data.success then
    [ApiCheckerEv.releasesFetched (data.result.getD [])]
  else
    [ApiCheckerEv.errorOccurred (data.message.getD "未知错误")]

/-- A placeholder response for environment slots a run never consults. -/
def dummyResp : HttpResponse := ⟨200, none, "", 0, []⟩

/-- Empty filesystem: no temp file, target folder absent. -/
def fsEmpty : FsState := ⟨none, none⟩

/-- Filesystem with an existing install containing a sentinel file. -/
def fsOld : FsState := ⟨none, some ["old.txt"]⟩

/-- Direct 200 response with a 2-byte zip body served in two 1-byte chunks. -/
def envDirectZip : DownloadEnv :=
  ⟨⟨200, none, "application/zip", 2, [1, 1]⟩, fun _ => dummyResp,
   fun _ => true, ["a.txt"]⟩

/-- First response 302 to a location; the second request's final response is
a 303 that nevertheless carries a zip body. -/
def envRedirect303 : DownloadEnv :=
  ⟨⟨302, some "https://cdn.example/pkg.zip", "text/html", 0, []⟩,
   fun _ => ⟨303, none, "application/zip", 1, [1]⟩, fun _ => true, ["a.txt"]⟩

/-- First response 302 to a location; the second request ends in a 404. -/
def envRedirect404 : DownloadEnv :=
  ⟨⟨302, some "https://cdn.example/pkg.zip", "text/html", 0, []⟩,
   fun _ => ⟨404, none, "text/html", 0, []⟩, fun _ => true, []⟩

/-- Direct 200 zip response without a content-length, body in two chunks. -/
def envNoLength : DownloadEnv :=
  ⟨⟨200, none, "application/zip", 0, [1, 1]⟩, fun _ => dummyResp,
   fun _ => true, ["a.txt"]⟩

/-- Direct 200 response served as an HTML page. -/
def envHtml : DownloadEnv :=
  ⟨⟨200, none, "text/html", 0, []⟩, fun _ => dummyResp, fun _ => true, []⟩

/-- First response 302 without a Location header. -/
def envNoLocation : DownloadEnv :=
  ⟨⟨302, none, "text/html", 0, []⟩, fun _ => dummyResp, fun _ => true, []⟩

/-- Direct 200 zip response whose downloaded file is not a valid archive. -/
def envBadZip : DownloadEnv :=
  ⟨⟨200, none, "application/zip", 1, [1]⟩, fun _ => dummyResp,
   fun _ => false, ["new.txt"]⟩

/-- Direct 200 zip response extracting to a single new entry. -/
def envGoodZip : DownloadEnv :=
  ⟨⟨200, none, "application/zip", 1, [1]⟩, fun _ => dummyResp,
   fun _ => true, ["new.txt"]⟩

/-- Direct 200 zip response with content-length 100, body served as a
29-byte chunk then a 71-byte chunk. -/
def envLen100 : DownloadEnv :=
  ⟨⟨200, none, "application/zip", 100, [29, 71]⟩, fun _ => dummyResp,
   fun _ => true, ["a.txt"]⟩

/-- A sample two-release provider payload. -/
def ghSample : List GhRelease :=
  [⟨"v2.0", "second release", [⟨"pkg.zip", "https://example/pkg.zip"⟩]⟩,
   ⟨"v1.0", "first release", []⟩]

theorem reSubAux_eq_specCollapseRuns (l : List Char) :
    reSubAux false l = specCollapseRuns l ∧
    reSubAux true l = specCollapseRuns (l.dropWhile (fun x => isIllegal x)) := by
  induction l with
  | nil => simp [reSubAux, specCollapseRuns]
  | cons c cs ih =>
    cases hc : isIllegal c with
    | false =>
      refine ⟨?_, ?_⟩
      · rw [specCollapseRuns]
        simp [reSubAux, hc, ih.1]
      · rw [List.dropWhile_cons_of_neg (by simp [hc])]
        rw [specCollapseRuns]
        simp [reSubAux, hc, ih.1]
    | true =>
      refine ⟨?_, ?_⟩
      · rw [specCollapseRuns]
        simp [reSubAux, hc, ih.2]
      · rw [List.dropWhile_cons_of_pos (by simp [hc])]
        simp [reSubAux, hc, ih.2]

theorem progOf_writeChunks (t : Nat) (cs : List Nat) : ∀ d : Nat,
    progOf (writeChunks t cs d).1 =
      (bytesSums d cs).map (fun s => if 0 < t then pyProgress s t else 0) := by
  induction cs with
  | nil => intro d; simp [writeChunks, bytesSums, progOf]
  | cons c cs ih =>
    intro d
    by_cases hc : c = 0
    · simp [writeChunks, bytesSums, hc, ih]
    · have h := ih (d + c)
      simp only [progOf] at h
      simp [writeChunks, bytesSums, hc, progOf, List.filterMap_cons, h]

theorem writeChunks_shape (t : Nat) (cs : List Nat) : ∀ d : Nat,
    ∀ e ∈ (writeChunks t cs d).1,
      (∃ n, e = Ev.fileWrite n) ∨ (∃ p, e = Ev.progressEmit p) := by
  induction cs with
  | nil => intro d e he; simp [writeChunks] at he
  | cons c cs ih =>
    intro d e he
    by_cases hc : c = 0
    · rw [writeChunks, if_pos hc] at he
      exact ih d e he
    · rw [writeChunks, if_neg hc] at he
      simp only [List.mem_cons] at he
      rcases he with rfl | rfl | he
      · exact Or.inl ⟨c, rfl⟩
      · exact Or.inr ⟨_, rfl⟩
      · exact ih _ e he

theorem bytesSums_eq_nil_of_sum_zero (cs : List Nat) : ∀ d : Nat,
    cs.sum = 0 → bytesSums d cs = [] := by
  induction cs with
  | nil => intro d _; rfl
  | cons c cs ih =>
    intro d hs
    simp only [List.sum_cons] at hs
    have hc : c = 0 := by omega
    have hcs : cs.sum = 0 := by omega
    simp [bytesSums, hc, ih d hcs]

theorem bytesSums_getLast (cs : List Nat) : ∀ d : Nat, cs.sum ≠ 0 →
    (bytesSums d cs).getLast? = some (d + cs.sum) := by
  induction cs with
  | nil => intro d hs; simp at hs
  | cons c cs ih =>
    intro d hs
    simp only [List.sum_cons] at hs ⊢
    by_cases hc : c = 0
    · subst hc
      rw [bytesSums, if_pos rfl]
      have := ih d (by omega)
      simpa using this
    · rw [bytesSums, if_neg hc]
      by_cases hcs : cs.sum = 0
      · rw [bytesSums_eq_nil_of_sum_zero cs (d + c) hcs]
        simp [hcs]
      · have htail := ih (d + c) hcs
        have hne : bytesSums (d + c) cs ≠ [] := by
          intro hnil
          rw [hnil] at htail
          simp at htail
        obtain ⟨x, xs, hx⟩ := List.exists_cons_of_ne_nil hne
        rw [hx]
        rw [hx] at htail
        rw [List.getLast?_cons_cons]
        rw [htail]
        congr 1
        omega

theorem bytesSums_chain (cs : List Nat) : ∀ d : Nat,
    List.Chain (· ≤ ·) d (bytesSums d cs) := by
  induction cs with
  | nil => intro d; simp [bytesSums]
  | cons c cs ih =>
    intro d
    by_cases hc : c = 0
    · rw [bytesSums, if_pos hc]
      exact ih d
    · rw [bytesSums, if_neg hc]
      exact List.Chain.cons (Nat.le_add_right d c) (ih (d + c))

theorem bytesSums_chain' (cs : List Nat) (d : Nat) :
    List.Chain' (· ≤ ·) (bytesSums d cs) :=
  List.Chain'.tail (l := d :: bytesSums d cs) (bytesSums_chain cs d)

theorem Updater.run_direct (env : DownloadEnv) (u : String) (fs0 : FsState)
    (hred : env.resp1.status ∉ redirectCodes)
    (hraise : ¬ raisesForStatus env.resp1.status) :
    Updater.run env u fs0 = afterResponse env env.resp1 [Ev.getReq u false] fs0 := by
  simp only [Updater.run, if_neg hred, if_neg hraise]

theorem Updater.run_redirected (env : DownloadEnv) (u loc : String) (fs0 : FsState)
    (hred : env.resp1.status ∈ redirectCodes)
    (hloc : env.resp1.location = some loc)
    (hraise : ¬ raisesForStatus (env.resp2 loc).status) :
    Updater.run env u fs0 =
      afterResponse env (env.resp2 loc)
        [Ev.getReq u false, Ev.getReq loc true] fs0 := by
  simp only [Updater.run, if_pos hred, hloc, if_neg hraise]

theorem Updater.run_redirected_raise (env : DownloadEnv) (u loc : String) (fs0 : FsState)
    (hred : env.resp1.status ∈ redirectCodes)
    (hloc : env.resp1.location = some loc)
    (hraise : raisesForStatus (env.resp2 loc).status) :
    Updater.run env u fs0 =
      ⟨[Ev.getReq u false, Ev.getReq loc true,
        Ev.errorEmit (DlError.httpStatus (env.resp2 loc).status),
        Ev.finishedEmit false], fs0⟩ := by
  simp only [Updater.run, if_pos hred, hloc, if_pos hraise]
  rfl

theorem Updater.run_no_location (env : DownloadEnv) (u : String) (fs0 : FsState)
    (hred : env.resp1.status ∈ redirectCodes)
    (hloc : env.resp1.location = none) :
    Updater.run env u fs0 =
      ⟨[Ev.getReq u false, Ev.errorEmit DlError.redirectNoLocation,
        Ev.finishedEmit false], fs0⟩ := by
  simp only [Updater.run, if_pos hred, hloc]

theorem APIUpdater.run_ok (env : DownloadEnv) (u : String) (fs0 : FsState)
    (hraise : ¬ raisesForStatus env.resp1.status) :
    APIUpdater.run env u fs0 = afterResponse env env.resp1 [Ev.getReq u true] fs0 := by
  simp only [APIUpdater.run, if_neg hraise]

theorem afterResponse_mismatch (env : DownloadEnv) (resp : HttpResponse)
    (pre : List Ev) (fs0 : FsState)
    (hct : contentTypeOk resp.contentType = false) :
    afterResponse env resp pre fs0 =
      ⟨pre ++ [Ev.errorEmit (DlError.contentMismatch resp.contentType),
               Ev.finishedEmit false], fs0⟩ := by
  simp only [afterResponse, hct, Bool.false_eq_true, if_false]

theorem afterResponse_corrupt (env : DownloadEnv) (resp : HttpResponse)
    (pre : List Ev) (fs0 : FsState)
    (hct : contentTypeOk resp.contentType = true)
    (hzip : env.isZip (writeChunks resp.contentLength resp.chunks 0).2 = false) :
    afterResponse env resp pre fs0 =
      ⟨(pre ++ Ev.fileOpen :: (writeChunks resp.contentLength resp.chunks 0).1) ++
         [Ev.errorEmit DlError.corruptArchive, Ev.finishedEmit false],
       ⟨some (writeChunks resp.contentLength resp.chunks 0).2, fs0.targetDir⟩⟩ := by
  simp only [afterResponse, hct, if_true, hzip, Bool.false_eq_true, if_false]

theorem afterResponse_ok (env : DownloadEnv) (resp : HttpResponse)
    (pre : List Ev) (fs0 : FsState)
    (hct : contentTypeOk resp.contentType = true)
    (hzip : env.isZip (writeChunks resp.contentLength resp.chunks 0).2 = true) :
    afterResponse env resp pre fs0 =
      ⟨(pre ++ Ev.fileOpen :: (writeChunks resp.contentLength resp.chunks 0).1) ++
         (if fs0.targetDir.isSome then [Ev.rmTargetDir, Ev.mkTargetDir]
          else [Ev.mkTargetDir]) ++
         [Ev.extractAll, Ev.finishedEmit true],
       ⟨some (writeChunks resp.contentLength resp.chunks 0).2,
        some env.archiveEntries⟩⟩ := by
  simp only [afterResponse, hct, if_true, hzip]

/-- C4: a response with a 2xx status whose content-type contains neither
`application/zip` nor `application/octet-stream` makes both workers emit the
content-mismatch error and finished(false) immediately: the full trace shows
no file is opened or written and nothing is extracted, and the filesystem is
left exactly as it was. -/
theorem C4_content_mismatch_rejected (env : DownloadEnv) (u : String) (fs0 : FsState)
    (h2xx : 200 ≤ env.resp1.status ∧ env.resp1.status ≤ 299)
    (hct : contentTypeOk env.resp1.contentType = false) :
    Updater.run env u fs0 =
      ⟨[Ev.getReq u false,
        Ev.errorEmit (DlError.contentMismatch env.resp1.contentType),
        Ev.finishedEmit false], fs0⟩ ∧
    APIUpdater.run env u fs0 =
      ⟨[Ev.getReq u true,
        Ev.errorEmit (DlError.contentMismatch env.resp1.contentType),
        Ev.finishedEmit false], fs0⟩ := by
  have hred : env.resp1.status ∉ redirectCodes := by
    intro h
    simp only [redirectCodes, List.mem_cons, List.not_mem_nil, or_false] at h
    rcases h with h | h | h | h | h <;> omega
  have hraise : ¬ raisesForStatus env.resp1.status := by
    unfold raisesForStatus
    omega
  rw [Updater.run_direct env u fs0 hred hraise,
    APIUpdater.run_ok env u fs0 hraise,
    afterResponse_mismatch env env.resp1 _ fs0 hct,
    afterResponse_mismatch env env.resp1 _ fs0 hct]
  exact ⟨rfl, rfl⟩

/-- Witness for C4: a 200 response with content-type `text/html` is
rejected by both workers without touching the filesystem. -/
theorem C4_witness :
    Updater.run envHtml "u" fsEmpty =
      ⟨[Ev.getReq "u" false, Ev.errorEmit (DlError.contentMismatch "text/html"),
        Ev.finishedEmit false], fsEmpty⟩ ∧
    APIUpdater.run envHtml "u" fsEmpty =
      ⟨[Ev.getReq "u" true, Ev.errorEmit (DlError.contentMismatch "text/html"),
        Ev.finishedEmit false], fsEmpty⟩ :=
  C4_content_mismatch_rejected envHtml "u" fsEmpty (by decide) (by decide)

/-- C7: a version-history envelope with `success = false` and message `m`
makes the checker emit exactly one error event carrying `m`, and no
releases-fetched event at all. -/
theorem C7_envelope_failure (status : Nat) (data : ApiEnvelope) (m : String)
    (hok : ¬ raisesForStatus status)
    (hs : data.success = false)
    (hm : data.message = some m) :
    APIUpdateChecker.run status data = [ApiCheckerEv.errorOccurred m] ∧
    ∀ rs : List ApiRelease,
      ApiCheckerEv.releasesFetched rs ∉ APIUpdateChecker.run status data := by
  have h : APIUpdateChecker.run status data = [ApiCheckerEv.errorOccurred m] := by
    simp [APIUpdateChecker.run, if_neg hok, hs, hm]
  refine ⟨h, fun rs hmem => ?_⟩
  rw [h] at hmem
  simp at hmem

/-- Witness for C7 at status 200 and the envelope
`{success: false, message: "boom"}`. -/
theorem C7_witness :
    APIUpdateChecker.run 200 ⟨false, none, some "boom"⟩ =
      [ApiCheckerEv.errorOccurred "boom"] :=
  (C7_envelope_failure 200 ⟨false, none, some "boom"⟩ "boom"
    (by decide) rfl rfl).1

/-- C8: a redirect-status first response carrying no `Location` header makes
`Updater.run` emit the redirect error and finished(false) and return at once:
the whole trace is those three events (no file open, no body bytes), and the
filesystem — the temp file in particular — is exactly the initial one. -/
theorem C8_redirect_without_location (env : DownloadEnv) (u : String) (fs0 : FsState)
    (hred : env.resp1.status ∈ redirectCodes)
    (hloc : env.resp1.location = none) :
    Updater.run env u fs0 =
      ⟨[Ev.getReq u false, Ev.errorEmit DlError.redirectNoLocation,
        Ev.finishedEmit false], fs0⟩ ∧
    (Updater.run env u fs0).fs.tempFile = fs0.tempFile := by
  have h := Updater.run_no_location env u fs0 hred hloc
  exact ⟨h, by rw [h]⟩

/-- Witness for C8 at a concrete 302 response without a Location header. -/
theorem C8_witness :
    Updater.run envNoLocation "u" fsEmpty =
      ⟨[Ev.getReq "u" false, Ev.errorEmit DlError.redirectNoLocation,
        Ev.finishedEmit false], fsEmpty⟩ :=
  (C8_redirect_without_location envNoLocation "u" fsEmpty (by decide) rfl).1

/-- C9: on a successful fetch the hosted-releases checker emits the parsed
provider list unchanged — exactly N releases, in provider order (the emitted
list is the provider list itself). -/
theorem C9_provider_list_passthrough (status : Nat) (rs : List GhRelease)
    (hok : ¬ raisesForStatus status) :
    UpdateChecker.run status rs = [CheckerEv.releasesFetched rs] ∧
    ∀ out : List GhRelease,
      CheckerEv.releasesFetched out ∈ UpdateChecker.run status rs →
        out = rs ∧ out.length = rs.length := by
  have h : UpdateChecker.run status rs = [CheckerEv.releasesFetched rs] := by
    simp [UpdateChecker.run, if_neg hok]
  refine ⟨h, fun out hmem => ?_⟩
  rw [h] at hmem
  simp only [List.mem_singleton, CheckerEv.releasesFetched.injEq] at hmem
  exact ⟨hmem, by rw [hmem]⟩

/-- Witness for C9 at a concrete two-release payload. -/
theorem C9_witness :
    UpdateChecker.run 200 ghSample = [CheckerEv.releasesFetched ghSample] :=
  (C9_provider_list_passthrough 200 ghSample (by decide)).1

/-- C5 counterexample: the source's `re.sub(r'[\\/:"*?<>|]+', "_", ...)`
collapses the run of two colons in `A::B.zip` into a single underscore,
giving `A_B`, whereas replacing each listed character with its own
underscore — the claim's reading — would give `A__B`. -/
theorem C5_counterexample :
    safe_folder_name "A::B.zip" = "A_B" ∧
    specSafeNamePerChar "A::B.zip" = "A__B" ∧
    safe_folder_name "A::B.zip" ≠ specSafeNamePerChar "A::B.zip" := by
  refine ⟨by decide, by decide, by decide⟩

/-- C5 amended: the target folder name is the asset name with its extension
stripped and each maximal run of the characters `\ / : " * ? < > |` replaced
by a single underscore; the claim's own example still holds:
`My:App*v2.zip` materialised into `/games` targets `/games/My_App_v2`. -/
theorem C5_safe_name_collapses_runs :
    (∀ assetName : String,
      safe_folder_name assetName = specSafeNameRuns assetName) ∧
    folder_path "/games" "My:App*v2.zip" = "/games/My_App_v2" := by
  refine ⟨fun assetName => ?_, by decide⟩
  unfold safe_folder_name specSafeNameRuns reSubRuns
  exact congrArg String.mk (reSubAux_eq_specCollapseRuns _).1

theorem log2Aux_spec : ∀ fuel n : Nat, n ≤ fuel → 1 ≤ n →
    2 ^ log2Aux fuel n ≤ n ∧ n < 2 ^ (log2Aux fuel n + 1) := by
  intro fuel
  induction fuel with
  | zero => intro n hn h1; omega
  | succ fuel ih =>
    intro n hn h1
    rw [log2Aux]
    by_cases h2 : 2 ≤ n
    · rw [if_pos h2]
      have hrec := ih (n / 2) (by omega) (by omega)
      have hp : (2:Nat) ^ (log2Aux fuel (n / 2) + 1) =
          2 * 2 ^ log2Aux fuel (n / 2) := by ring
      have hp2 : (2:Nat) ^ (log2Aux fuel (n / 2) + 1 + 1) =
          2 * 2 ^ (log2Aux fuel (n / 2) + 1) := by ring
      omega
    · rw [if_neg h2]
      refine ⟨by simpa using h1, by simpa using by omega⟩

theorem log2floor_spec (n : Nat) (h1 : 1 ≤ n) :
    2 ^ log2floor n ≤ n ∧ n < 2 ^ (log2floor n + 1) :=
  log2Aux_spec n n le_rfl h1

theorem log2floor_eq (n k : Nat) (h1 : 2 ^ k ≤ n) (h2 : n < 2 ^ (k + 1)) :
    log2floor n = k := by
  have hs := log2floor_spec n (le_trans (Nat.one_le_two_pow) h1)
  rcases lt_trichotomy (log2floor n) k with h | h | h
  · exfalso
    have hle : (2:Nat) ^ (log2floor n + 1) ≤ 2 ^ k :=
      Nat.pow_le_pow_right (by omega) (by omega)
    omega
  · exact h
  · exfalso
    have hle : (2:Nat) ^ (k + 1) ≤ 2 ^ log2floor n :=
      Nat.pow_le_pow_right (by omega) (by omega)
    omega

theorem rnd_ge_div (num den : Nat) : num / den ≤ rnd num den := by
  simp only [rnd]
  repeat' split
  all_goals omega

theorem rnd_le_div_succ (num den : Nat) : rnd num den ≤ num / den + 1 := by
  simp only [rnd]
  repeat' split
  all_goals omega

theorem rnd_eq_div (num den : Nat) (hden : 0 < den) (h : num % den = 0) :
    rnd num den = num / den := by
  simp only [rnd, h]
  repeat' split
  all_goals omega

theorem dyVal_eq (m : Nat) (e : Int) : dyVal (m, e) = (m : ℚ) * (2:ℚ) ^ e := by
  simp only [dyVal]
  split
  · rw [← zpow_natCast (2:ℚ), Int.toNat_of_nonneg (by assumption)]
  · have he : (0:Int) ≤ -e := by omega
    have h2 : ((2:ℚ) ^ (-e).toNat) = (2:ℚ) ^ (-e) := by
      rw [← zpow_natCast, Int.toNat_of_nonneg he]
    rw [h2, zpow_neg, div_eq_mul_inv, inv_inv]

theorem dyVal_nonneg (p : Nat × Int) : 0 ≤ dyVal p := by
  obtain ⟨m, e⟩ := p
  rw [dyVal_eq]
  positivity

theorem dyVal_mono_m (m1 m2 : Nat) (e : Int) (h : m1 ≤ m2) :
    dyVal (m1, e) ≤ dyVal (m2, e) := by
  rw [dyVal_eq, dyVal_eq]
  have h2 : (0:ℚ) < (2:ℚ) ^ e := by positivity
  have hm : (m1 : ℚ) ≤ (m2 : ℚ) := by exact_mod_cast h
  exact mul_le_mul_of_nonneg_right hm (le_of_lt h2)

theorem scaledFrac_den_pos (a b : Nat) (q : Int) (hb : 0 < b) :
    0 < (scaledFrac a b q).2 := by
  simp only [scaledFrac]
  split
  · exact hb
  · positivity

theorem scaledFrac_val (a b : Nat) (q : Int) (hb : 0 < b) :
    ((scaledFrac a b q).1 : ℚ) / ((scaledFrac a b q).2 : ℚ) =
      ((a:ℚ) / (b:ℚ)) * (2:ℚ) ^ (-q) := by
  have hbq : (0:ℚ) < (b:ℚ) := by exact_mod_cast hb
  simp only [scaledFrac]
  split
  · have hq : (0:Int) ≤ -q := by omega
    have h2 : ((2:ℚ) ^ (-q).toNat) = (2:ℚ) ^ (-q) := by
      rw [← zpow_natCast, Int.toNat_of_nonneg hq]
    push_cast
    rw [h2, mul_div_right_comm]
  · have hq : (0:Int) ≤ q := by omega
    have h2 : ((2:ℚ) ^ q.toNat) = (2:ℚ) ^ q := by
      rw [← zpow_natCast, Int.toNat_of_nonneg hq]
    push_cast
    rw [h2, zpow_neg, div_mul_eq_div_div, div_eq_mul_inv]

theorem zpow_sub_natCast (k N : Nat) :
    (2:ℚ) ^ ((k:ℤ) - (N:ℤ)) = (2:ℚ) ^ k / (2:ℚ) ^ N := by
  rw [zpow_sub₀ (by norm_num : (2:ℚ) ≠ 0), zpow_natCast, zpow_natCast]

theorem floorLog2_window (x : ℚ) (k N : Nat) (_hx : 0 < x)
    (h1 : (2:ℚ) ^ k ≤ x * 2 ^ N) (h2 : x * 2 ^ N < 2 ^ (k + 1)) :
    (2:ℚ) ^ ((k:ℤ) - (N:ℤ)) ≤ x ∧ x < (2:ℚ) ^ (((k:ℤ) - (N:ℤ)) + 1) := by
  have h2N : (0:ℚ) < 2 ^ N := by positivity
  constructor
  · rw [zpow_sub_natCast, div_le_iff h2N]
    exact h1
  · have : ((k:ℤ) - (N:ℤ)) + 1 = ((k + 1 : ℕ) : ℤ) - (N:ℤ) := by push_cast; ring
    rw [this, zpow_sub_natCast, lt_div_iff h2N]
    exact h2

theorem floorLog2_spec (a b : Nat) (ha : 0 < a) (hb : 0 < b) :
    (2:ℚ) ^ floorLog2 a b ≤ (a:ℚ) / (b:ℚ) ∧
    (a:ℚ) / (b:ℚ) < (2:ℚ) ^ (floorLog2 a b + 1) := by
  have hbq : (0:ℚ) < (b:ℚ) := by exact_mod_cast hb
  have haq : (0:ℚ) < (a:ℚ) := by exact_mod_cast ha
  have hbN : b < 2 ^ (log2floor b + 1) := (log2floor_spec b hb).2
  have hbA : b ≤ a * 2 ^ (log2floor b + 1) :=
    le_trans (Nat.le_of_lt hbN) (Nat.le_mul_of_pos_left _ ha)
  have hq1 : 1 ≤ (a * 2 ^ (log2floor b + 1)) / b := (Nat.one_le_div_iff hb).mpr hbA
  have hk := log2floor_spec ((a * 2 ^ (log2floor b + 1)) / b) hq1
  -- exact rational bounds around the integer quotient
  have hfl : ((((a * 2 ^ (log2floor b + 1))) / b : Nat) : ℚ) ≤
      ((a * 2 ^ (log2floor b + 1) : Nat) : ℚ) / b := by
    rw [le_div_iff hbq]
    exact_mod_cast Nat.div_mul_le_self _ b
  have hfu : ((a * 2 ^ (log2floor b + 1) : Nat) : ℚ) / b <
      ((((a * 2 ^ (log2floor b + 1))) / b : Nat) : ℚ) + 1 := by
    rw [div_lt_iff hbq]
    have h2 : a * 2 ^ (log2floor b + 1) <
        b * ((a * 2 ^ (log2floor b + 1)) / b + 1) := by
      have hdm := Nat.div_add_mod (a * 2 ^ (log2floor b + 1)) b
      have hmo : (a * 2 ^ (log2floor b + 1)) % b < b := Nat.mod_lt _ hb
      calc a * 2 ^ (log2floor b + 1)
          = b * ((a * 2 ^ (log2floor b + 1)) / b) +
            (a * 2 ^ (log2floor b + 1)) % b := hdm.symm
        _ < b * ((a * 2 ^ (log2floor b + 1)) / b) + b := by omega
        _ = b * ((a * 2 ^ (log2floor b + 1)) / b + 1) := by ring
    calc ((a * 2 ^ (log2floor b + 1) : Nat) : ℚ)
        < ((b * ((a * 2 ^ (log2floor b + 1)) / b + 1) : Nat) : ℚ) := by
          exact_mod_cast h2
      _ = (((((a * 2 ^ (log2floor b + 1))) / b : Nat) : ℚ) + 1) * b := by
          push_cast; ring
  have hAval : ((a * 2 ^ (log2floor b + 1) : Nat) : ℚ) / b =
      ((a:ℚ) / b) * 2 ^ (log2floor b + 1) := by
    push_cast; ring
  have hlow : (2:ℚ) ^ (log2floor ((a * 2 ^ (log2floor b + 1)) / b)) ≤
      ((a:ℚ) / b) * 2 ^ (log2floor b + 1) := by
    rw [← hAval]
    exact le_trans (by exact_mod_cast hk.1) hfl
  have hupp : ((a:ℚ) / b) * 2 ^ (log2floor b + 1) <
      (2:ℚ) ^ (log2floor ((a * 2 ^ (log2floor b + 1)) / b) + 1) := by
    rw [← hAval]
    refine lt_of_lt_of_le hfu ?_
    have : (a * 2 ^ (log2floor b + 1)) / b + 1 ≤
        2 ^ (log2floor ((a * 2 ^ (log2floor b + 1)) / b) + 1) :=
      Nat.succ_le_of_lt hk.2
    exact_mod_cast this
  have hw := floorLog2_window ((a:ℚ) / b)
    (log2floor ((a * 2 ^ (log2floor b + 1)) / b)) (log2floor b + 1)
    (by positivity) hlow hupp
  simpa only [floorLog2] using hw

theorem rnd_eq_of_lt (num den : Nat) (h : 2 * (num % den) < den) :
    rnd num den = num / den := by
  simp only [rnd]
  rw [if_pos h]

theorem rnd_eq_of_gt (num den : Nat) (h : den < 2 * (num % den)) :
    rnd num den = num / den + 1 := by
  simp only [rnd]
  rw [if_neg (by omega), if_pos h]

theorem rnd_eq_of_tie (num den : Nat) (h : 2 * (num % den) = den) :
    rnd num den =
      if num / den % 2 = 0 then num / den else num / den + 1 := by
  simp only [rnd]
  rw [if_neg (by omega), if_neg (by omega)]

theorem rnd_mono (a b c d : Nat) (hb : 0 < b) (hd : 0 < d)
    (h : a * d ≤ c * b) : rnd a b ≤ rnd c d := by
  have hn : a / b ≤ c / d := by
    rw [Nat.le_div_iff_mul_le hd]
    have h1 : a / b * b ≤ a := Nat.div_mul_le_self a b
    have h2 : a / b * d * b ≤ c * b := by
      calc a / b * d * b = a / b * b * d := by ring
        _ ≤ a * d := Nat.mul_le_mul_right d h1
        _ ≤ c * b := h
    exact Nat.le_of_mul_le_mul_right h2 hb
  by_cases heq : a / b = c / d
  · -- same integer part: compare the remainder zones
    have hab := Nat.div_add_mod a b
    have hcd := Nat.div_add_mod c d
    have hrr : (a % b) * d ≤ (c % d) * b := by
      have key : b * (a / b) * d + (a % b) * d ≤
          d * (c / d) * b + (c % d) * b := by
        calc b * (a / b) * d + (a % b) * d
            = (b * (a / b) + a % b) * d := by ring
          _ = a * d := by rw [hab]
          _ ≤ c * b := h
          _ = (d * (c / d) + c % d) * b := by rw [hcd]
          _ = d * (c / d) * b + (c % d) * b := by ring
      have heq2 : b * (a / b) * d = d * (c / d) * b := by rw [heq]; ring
      linarith
    by_cases hz1 : 2 * (a % b) < b
    · rw [rnd_eq_of_lt a b hz1]
      have := rnd_ge_div c d
      omega
    · by_cases hz1' : b < 2 * (a % b)
      · -- left zone is "round up": the right zone must be too
        have hz2 : d < 2 * (c % d) := by
          by_contra hcon
          push_neg at hcon
          have p1 : b * d < 2 * (a % b) * d :=
            (Nat.mul_lt_mul_right hd).mpr hz1'
          have p2 : 2 * (a % b) * d ≤ 2 * (c % d) * b := by
            calc 2 * (a % b) * d = 2 * ((a % b) * d) := by ring
              _ ≤ 2 * ((c % d) * b) := Nat.mul_le_mul_left 2 hrr
              _ = 2 * (c % d) * b := by ring
          have p3 : 2 * (c % d) * b ≤ d * b := Nat.mul_le_mul_right b hcon
          have contra : b * d < d * b :=
            lt_of_le_of_lt (le_of_eq rfl) (lt_of_lt_of_le (lt_of_lt_of_le p1 p2) p3)
          rw [Nat.mul_comm d b] at contra
          exact absurd contra (lt_irrefl _)
        rw [rnd_eq_of_gt a b hz1', rnd_eq_of_gt c d hz2]
        omega
      · -- left zone is the tie
        have htie : 2 * (a % b) = b := by omega
        by_cases hz2 : 2 * (c % d) < d
        · exfalso
          have p1 : b * d = 2 * (a % b) * d := by rw [htie]
          have p2 : 2 * (a % b) * d ≤ 2 * (c % d) * b := by
            calc 2 * (a % b) * d = 2 * ((a % b) * d) := by ring
              _ ≤ 2 * ((c % d) * b) := Nat.mul_le_mul_left 2 hrr
              _ = 2 * (c % d) * b := by ring
          have p3 : 2 * (c % d) * b < d * b :=
            (Nat.mul_lt_mul_right hb).mpr hz2
          have contra : b * d < d * b :=
            lt_of_le_of_lt (le_of_eq p1) (lt_of_le_of_lt p2 p3)
          rw [Nat.mul_comm d b] at contra
          exact absurd contra (lt_irrefl _)
        · by_cases hz2' : d < 2 * (c % d)
          · rw [rnd_eq_of_tie a b htie, rnd_eq_of_gt c d hz2']
            split <;> omega
          · have htie2 : 2 * (c % d) = d := by omega
            rw [rnd_eq_of_tie a b htie, rnd_eq_of_tie c d htie2, heq]
  · have hlt : a / b < c / d := lt_of_le_of_ne hn heq
    have g1 := rnd_le_div_succ a b
    have g2 := rnd_ge_div c d
    omega

theorem rneFrac_eq (a b : Nat) (ha : a ≠ 0) :
    rneFrac a b =
      (rnd (scaledFrac a b (max (floorLog2 a b - 52) (-1074))).1
        (scaledFrac a b (max (floorLog2 a b - 52) (-1074))).2,
       max (floorLog2 a b - 52) (-1074)) := by
  simp only [rneFrac, if_neg ha]

theorem floorLog2_mono (a b c d : Nat) (ha : 0 < a) (hb : 0 < b)
    (hc : 0 < c) (hd : 0 < d) (h : (a:ℚ)/b ≤ (c:ℚ)/d) :
    floorLog2 a b ≤ floorLog2 c d := by
  by_contra hcon
  push_neg at hcon
  have h1 := (floorLog2_spec a b ha hb).1
  have h2 := (floorLog2_spec c d hc hd).2
  have h3 : (2:ℚ) ^ (floorLog2 c d + 1) ≤ 2 ^ floorLog2 a b :=
    zpow_le_zpow_right₀ (by norm_num) (by omega)
  linarith

theorem rneFrac_le_pow (a b : Nat) (ha : 0 < a) (hb : 0 < b) :
    dyVal (rneFrac a b) ≤ (2:ℚ) ^ (floorLog2 a b + 1) := by
  have ha' : a ≠ 0 := by omega
  rw [rneFrac_eq a b ha', dyVal_eq]
  have hdpos : 0 < (scaledFrac a b (max (floorLog2 a b - 52) (-1074))).2 :=
    scaledFrac_den_pos a b _ hb
  have hdq : (0:ℚ) <
      ((scaledFrac a b (max (floorLog2 a b - 52) (-1074))).2 : ℚ) := by
    exact_mod_cast hdpos
  have hval := scaledFrac_val a b (max (floorLog2 a b - 52) (-1074)) hb
  have hx := floorLog2_spec a b ha hb
  have hmul : ((a:ℚ)/b) * 2 ^ (-(max (floorLog2 a b - 52) (-1074))) <
      (2:ℚ) ^ (floorLog2 a b + 1 - max (floorLog2 a b - 52) (-1074)) := by
    calc ((a:ℚ)/b) * 2 ^ (-(max (floorLog2 a b - 52) (-1074)))
        < 2 ^ (floorLog2 a b + 1) *
            2 ^ (-(max (floorLog2 a b - 52) (-1074))) :=
          mul_lt_mul_of_pos_right hx.2 (by positivity)
      _ = 2 ^ (floorLog2 a b + 1 - max (floorLog2 a b - 52) (-1074)) := by
          rw [← zpow_add₀ (by norm_num : (2:ℚ) ≠ 0)]
          congr 1
  by_cases hcase : 0 ≤ floorLog2 a b + 1 - max (floorLog2 a b - 52) (-1074)
  · have hpow : (2:ℚ) ^ (floorLog2 a b + 1 - max (floorLog2 a b - 52) (-1074)) =
        ((2 ^ (floorLog2 a b + 1 -
          max (floorLog2 a b - 52) (-1074)).toNat : ℕ) : ℚ) := by
      push_cast
      rw [← zpow_natCast (2:ℚ), Int.toNat_of_nonneg hcase]
    have hfloor : (scaledFrac a b (max (floorLog2 a b - 52) (-1074))).1 /
        (scaledFrac a b (max (floorLog2 a b - 52) (-1074))).2 <
        2 ^ (floorLog2 a b + 1 - max (floorLog2 a b - 52) (-1074)).toNat := by
      by_contra hcon
      push_neg at hcon
      have h1 : ((2 ^ (floorLog2 a b + 1 -
          max (floorLog2 a b - 52) (-1074)).toNat : ℕ) : ℚ) ≤
          (((scaledFrac a b (max (floorLog2 a b - 52) (-1074))).1 /
            (scaledFrac a b (max (floorLog2 a b - 52) (-1074))).2 : ℕ) : ℚ) := by
        exact_mod_cast hcon
      have h2 : (((scaledFrac a b (max (floorLog2 a b - 52) (-1074))).1 /
          (scaledFrac a b (max (floorLog2 a b - 52) (-1074))).2 : ℕ) : ℚ) ≤
          ((scaledFrac a b (max (floorLog2 a b - 52) (-1074))).1 : ℚ) /
            ((scaledFrac a b (max (floorLog2 a b - 52) (-1074))).2 : ℚ) := by
        rw [le_div_iff₀ hdq]
        exact_mod_cast Nat.div_mul_le_self _ _
      rw [hval] at h2
      rw [hpow] at hmul
      linarith
    have hm : rnd (scaledFrac a b (max (floorLog2 a b - 52) (-1074))).1
        (scaledFrac a b (max (floorLog2 a b - 52) (-1074))).2 ≤
        2 ^ (floorLog2 a b + 1 - max (floorLog2 a b - 52) (-1074)).toNat := by
      have := rnd_le_div_succ (scaledFrac a b (max (floorLog2 a b - 52) (-1074))).1
        (scaledFrac a b (max (floorLog2 a b - 52) (-1074))).2
      omega
    calc ((rnd (scaledFrac a b (max (floorLog2 a b - 52) (-1074))).1
          (scaledFrac a b (max (floorLog2 a b - 52) (-1074))).2 : ℕ) : ℚ) *
          2 ^ max (floorLog2 a b - 52) (-1074)
        ≤ ((2 ^ (floorLog2 a b + 1 -
            max (floorLog2 a b - 52) (-1074)).toNat : ℕ) : ℚ) *
            2 ^ max (floorLog2 a b - 52) (-1074) :=
          mul_le_mul_of_nonneg_right (by exact_mod_cast hm) (by positivity)
      _ = (2:ℚ) ^ (floorLog2 a b + 1 - max (floorLog2 a b - 52) (-1074)) *
            2 ^ max (floorLog2 a b - 52) (-1074) := by rw [hpow]
      _ = 2 ^ (floorLog2 a b + 1) := by
          rw [← zpow_add₀ (by norm_num : (2:ℚ) ≠ 0)]
          congr 1
          ring
  · -- the scaled fraction is below 1/2: rounds to zero
    push_neg at hcase
    have hhalf : (2:ℚ) ^ (floorLog2 a b + 1 - max (floorLog2 a b - 52) (-1074)) ≤
        2 ^ (-1 : ℤ) :=
      zpow_le_zpow_right₀ (by norm_num) (by omega)
    have hfrac : ((scaledFrac a b (max (floorLog2 a b - 52) (-1074))).1 : ℚ) /
        ((scaledFrac a b (max (floorLog2 a b - 52) (-1074))).2 : ℚ) < 1/2 := by
      rw [hval]
      have hlt : ((a:ℚ)/b) * 2 ^ (-(max (floorLog2 a b - 52) (-1074))) <
          (2:ℚ) ^ (-1 : ℤ) := lt_of_lt_of_le hmul hhalf
      have h12 : (2:ℚ) ^ (-1 : ℤ) = 1/2 := by norm_num
      rw [h12] at hlt
      exact hlt
    have h2n : 2 * (scaledFrac a b (max (floorLog2 a b - 52) (-1074))).1 <
        (scaledFrac a b (max (floorLog2 a b - 52) (-1074))).2 := by
      by_contra hcon
      push_neg at hcon
      have hc2 : ((scaledFrac a b (max (floorLog2 a b - 52) (-1074))).2 : ℚ) ≤
          2 * ((scaledFrac a b (max (floorLog2 a b - 52) (-1074))).1 : ℚ) := by
        exact_mod_cast hcon
      rw [div_lt_iff₀ hdq] at hfrac
      linarith
    have hz : 2 * ((scaledFrac a b (max (floorLog2 a b - 52) (-1074))).1 %
        (scaledFrac a b (max (floorLog2 a b - 52) (-1074))).2) <
        (scaledFrac a b (max (floorLog2 a b - 52) (-1074))).2 := by
      have := Nat.mod_le (scaledFrac a b (max (floorLog2 a b - 52) (-1074))).1
        (scaledFrac a b (max (floorLog2 a b - 52) (-1074))).2
      omega
    rw [rnd_eq_of_lt _ _ hz, Nat.div_eq_of_lt (by omega)]
    have : ((0:ℕ):ℚ) * 2 ^ max (floorLog2 a b - 52) (-1074) = 0 := by norm_num
    rw [this]
    positivity

theorem rneFrac_ge_pow (a b : Nat) (ha : 0 < a) (hb : 0 < b)
    (hnorm : (-1074 : Int) ≤ floorLog2 a b - 52) :
    (2:ℚ) ^ floorLog2 a b ≤ dyVal (rneFrac a b) := by
  have ha' : a ≠ 0 := by omega
  have hqe : max (floorLog2 a b - 52) (-1074) = floorLog2 a b - 52 :=
    max_eq_left hnorm
  rw [rneFrac_eq a b ha', hqe, dyVal_eq]
  have hdpos : 0 < (scaledFrac a b (floorLog2 a b - 52)).2 :=
    scaledFrac_den_pos a b _ hb
  have hdq : (0:ℚ) < ((scaledFrac a b (floorLog2 a b - 52)).2 : ℚ) := by
    exact_mod_cast hdpos
  have hval := scaledFrac_val a b (floorLog2 a b - 52) hb
  have hx := floorLog2_spec a b ha hb
  have hfrac : (2:ℚ) ^ (52 : ℤ) ≤
      ((scaledFrac a b (floorLog2 a b - 52)).1 : ℚ) /
        ((scaledFrac a b (floorLog2 a b - 52)).2 : ℚ) := by
    rw [hval]
    calc (2:ℚ) ^ (52 : ℤ)
        = 2 ^ floorLog2 a b * 2 ^ (-(floorLog2 a b - 52)) := by
          rw [← zpow_add₀ (by norm_num : (2:ℚ) ≠ 0)]
          congr 1
          ring
      _ ≤ ((a:ℚ)/b) * 2 ^ (-(floorLog2 a b - 52)) :=
          mul_le_mul_of_nonneg_right hx.1 (by positivity)
  have hfloor : 2 ^ 52 ≤ (scaledFrac a b (floorLog2 a b - 52)).1 /
      (scaledFrac a b (floorLog2 a b - 52)).2 := by
    rw [Nat.le_div_iff_mul_le hdpos]
    have : ((2:ℚ) ^ (52:ℤ)) * ((scaledFrac a b (floorLog2 a b - 52)).2 : ℚ) ≤
        ((scaledFrac a b (floorLog2 a b - 52)).1 : ℚ) := by
      rw [← le_div_iff₀ hdq]
      exact hfrac
    have h52 : ((2:ℚ) ^ (52:ℤ)) = ((2 ^ 52 : ℕ) : ℚ) := by norm_num
    rw [h52] at this
    exact_mod_cast this
  have hm : 2 ^ 52 ≤ rnd (scaledFrac a b (floorLog2 a b - 52)).1
      (scaledFrac a b (floorLog2 a b - 52)).2 :=
    le_trans hfloor (rnd_ge_div _ _)
  calc (2:ℚ) ^ floorLog2 a b
      = 2 ^ (52:ℤ) * 2 ^ (floorLog2 a b - 52) := by
        rw [← zpow_add₀ (by norm_num : (2:ℚ) ≠ 0)]
        congr 1
        ring
    _ ≤ ((rnd (scaledFrac a b (floorLog2 a b - 52)).1
          (scaledFrac a b (floorLog2 a b - 52)).2 : ℕ) : ℚ) *
          2 ^ (floorLog2 a b - 52) := by
        refine mul_le_mul_of_nonneg_right ?_ (by positivity)
        have h52 : ((2:ℚ) ^ (52:ℤ)) = ((2 ^ 52 : ℕ) : ℚ) := by norm_num
        rw [h52]
        exact_mod_cast hm

theorem rneFrac_mono (a b c d : Nat) (hb : 0 < b) (hd : 0 < d)
    (h : (a:ℚ)/b ≤ (c:ℚ)/d) :
    dyVal (rneFrac a b) ≤ dyVal (rneFrac c d) := by
  by_cases ha : a = 0
  · subst ha
    have h0 : rneFrac 0 b = (0, 0) := by simp [rneFrac]
    rw [h0]
    have hz : dyVal ((0:ℕ), (0:ℤ)) = 0 := by rw [dyVal_eq]; norm_num
    rw [hz]
    exact dyVal_nonneg _
  · have hapos : 0 < a := Nat.pos_of_ne_zero ha
    have hbq : (0:ℚ) < b := by exact_mod_cast hb
    have hdq : (0:ℚ) < d := by exact_mod_cast hd
    have hcpos : 0 < c := by
      by_contra hcon
      have hc0 : c = 0 := by omega
      subst hc0
      have hpos : (0:ℚ) < (a:ℚ)/b := by positivity
      have hzero : ((0:ℕ):ℚ)/(d:ℚ) = 0 := by norm_num
      rw [hzero] at h
      linarith
    have hc' : c ≠ 0 := by omega
    have hE : floorLog2 a b ≤ floorLog2 c d :=
      floorLog2_mono a b c d hapos hb hcpos hd h
    by_cases hqq : max (floorLog2 a b - 52) (-1074) =
        max (floorLog2 c d - 52) (-1074)
    · rw [rneFrac_eq a b ha, rneFrac_eq c d hc', hqq]
      apply dyVal_mono_m
      have hcross : a * d ≤ c * b := by
        rw [div_le_div_iff hbq hdq] at h
        exact_mod_cast h
      apply rnd_mono _ _ _ _
        (scaledFrac_den_pos a b _ hb) (scaledFrac_den_pos c d _ hd)
      by_cases hqs : max (floorLog2 c d - 52) (-1074) ≤ 0
      · simp only [scaledFrac, if_pos hqs]
        calc a * 2 ^ (-max (floorLog2 c d - 52) (-1074)).toNat * d
            = (a * d) * 2 ^ (-max (floorLog2 c d - 52) (-1074)).toNat := by ring
          _ ≤ (c * b) * 2 ^ (-max (floorLog2 c d - 52) (-1074)).toNat :=
              Nat.mul_le_mul_right _ hcross
          _ = c * 2 ^ (-max (floorLog2 c d - 52) (-1074)).toNat * b := by ring
      · simp only [scaledFrac, if_neg hqs]
        calc a * (d * 2 ^ (max (floorLog2 c d - 52) (-1074)).toNat)
            = (a * d) * 2 ^ (max (floorLog2 c d - 52) (-1074)).toNat := by ring
          _ ≤ (c * b) * 2 ^ (max (floorLog2 c d - 52) (-1074)).toNat :=
              Nat.mul_le_mul_right _ hcross
          _ = c * (b * 2 ^ (max (floorLog2 c d - 52) (-1074)).toNat) := by ring
    · have hq : max (floorLog2 a b - 52) (-1074) ≤
          max (floorLog2 c d - 52) (-1074) :=
        max_le_max (by omega) le_rfl
      have hqlt : max (floorLog2 a b - 52) (-1074) <
          max (floorLog2 c d - 52) (-1074) := lt_of_le_of_ne hq hqq
      have hE2 : (-1074 : ℤ) ≤ floorLog2 c d - 52 := by
        by_contra hcon
        push_neg at hcon
        have h1 : (-1074:ℤ) ≤ max (floorLog2 a b - 52) (-1074) :=
          le_max_right _ _
        have h2 : (-1074:ℤ) < max (floorLog2 c d - 52) (-1074) :=
          lt_of_le_of_lt h1 hqlt
        rw [max_eq_right (le_of_lt hcon)] at h2
        exact absurd h2 (lt_irrefl _)
      have hElt : floorLog2 a b < floorLog2 c d := by
        by_contra hcon
        push_neg at hcon
        have heq : floorLog2 a b = floorLog2 c d := le_antisymm hE hcon
        rw [heq] at hqq
        exact hqq rfl
      have hup : dyVal (rneFrac a b) ≤ (2:ℚ) ^ (floorLog2 a b + 1) :=
        rneFrac_le_pow a b hapos hb
      have hlo : (2:ℚ) ^ floorLog2 c d ≤ dyVal (rneFrac c d) :=
        rneFrac_ge_pow c d hcpos hd hE2
      have hmid : (2:ℚ) ^ (floorLog2 a b + 1) ≤ 2 ^ floorLog2 c d :=
        zpow_le_zpow_right₀ (by norm_num) (by omega)
      linarith

theorem dyFrac_den_pos (p : Nat × Int) : 0 < (dyFrac p).2 := by
  simp only [dyFrac]
  split
  · norm_num
  · positivity

theorem dyFrac_val (p : Nat × Int) :
    ((dyFrac p).1 : ℚ) / ((dyFrac p).2 : ℚ) = dyVal p := by
  obtain ⟨m, e⟩ := p
  simp only [dyFrac, dyVal]
  split
  · push_cast
    ring
  · push_cast
    ring

theorem dyVal_hundred (m : Nat) (e : Int) :
    dyVal (100 * m, e) = 100 * dyVal (m, e) := by
  rw [dyVal_eq, dyVal_eq]
  push_cast
  ring

theorem dyTrunc_eq_floor (p : Nat × Int) : dyTrunc p = ⌊dyVal p⌋₊ := by
  obtain ⟨m, e⟩ := p
  simp only [dyTrunc, dyVal]
  split
  · rw [show ((m:ℚ) * 2 ^ (Int.toNat _)) = ((m * 2 ^ (Int.toNat _) : ℕ) : ℚ) by
      push_cast; ring]
    rw [Nat.floor_natCast]
  · rw [show ((m:ℚ) / 2 ^ (Int.toNat _)) = ((m:ℕ):ℚ) / ((2 ^ (Int.toNat _) : ℕ):ℚ) by
      push_cast; ring]
    rw [Nat.floor_div_nat, Nat.floor_natCast]

theorem dyTrunc_mono (p q : Nat × Int) (h : dyVal p ≤ dyVal q) :
    dyTrunc p ≤ dyTrunc q := by
  rw [dyTrunc_eq_floor, dyTrunc_eq_floor]
  exact Nat.floor_mono h

theorem pyProgress_mono (t d1 d2 : Nat) (ht : 0 < t) (h : d1 ≤ d2) :
    pyProgress d1 t ≤ pyProgress d2 t := by
  have htq : (0:ℚ) < (t:ℚ) := by exact_mod_cast ht
  have h1 : dyVal (rneFrac d1 t) ≤ dyVal (rneFrac d2 t) := by
    apply rneFrac_mono d1 t d2 t ht ht
    have hq2 : (d1:ℚ) ≤ (d2:ℚ) := by exact_mod_cast h
    gcongr
  simp only [pyProgress]
  apply dyTrunc_mono
  apply rneFrac_mono _ _ _ _ (dyFrac_den_pos _) (dyFrac_den_pos _)
  rw [dyFrac_val, dyFrac_val, dyVal_hundred, dyVal_hundred]
  have e1 : ((rneFrac d1 t).1, (rneFrac d1 t).2) = rneFrac d1 t := rfl
  have e2 : ((rneFrac d2 t).1, (rneFrac d2 t).2) = rneFrac d2 t := rfl
  rw [e1, e2]
  exact mul_le_mul_of_nonneg_left h1 (by norm_num)

theorem rneFrac_self (t : Nat) (ht : 0 < t) : rneFrac t t = (2 ^ 52, -52) := by
  have ht' : t ≠ 0 := by omega
  have hE : floorLog2 t t = 0 := by
    have hdiv : (t * 2 ^ (log2floor t + 1)) / t = 2 ^ (log2floor t + 1) := by
      rw [Nat.mul_comm, Nat.mul_div_cancel _ ht]
    simp only [floorLog2, hdiv]
    rw [log2floor_eq (2 ^ (log2floor t + 1)) (log2floor t + 1) le_rfl
      (Nat.pow_lt_pow_right (by omega) (by omega))]
    omega
  have hq : max (floorLog2 t t - 52) (-1074) = -52 := by
    rw [hE]
    decide
  rw [rneFrac_eq t t ht', hq]
  have hs : scaledFrac t t (-52) = (t * 2 ^ 52, t) := by
    simp only [scaledFrac, if_pos (by decide : (-52:ℤ) ≤ 0)]
    rfl
  rw [hs]
  have hmod : (t * 2 ^ 52) % t = 0 := Nat.mul_mod_right t (2 ^ 52)
  have hdiv : (t * 2 ^ 52) / t = 2 ^ 52 := by
    rw [Nat.mul_comm, Nat.mul_div_cancel _ ht]
  rw [rnd_eq_div _ _ ht hmod, hdiv]

theorem pyProgress_self (t : Nat) (ht : 0 < t) : pyProgress t t = 100 := by
  simp only [pyProgress, rneFrac_self t ht]
  decide

theorem progOf_afterResponse (env : DownloadEnv) (resp : HttpResponse)
    (pre : List Ev) (fs0 : FsState)
    (hpre : progOf pre = [])
    (hct : contentTypeOk resp.contentType = true) :
    progOf (afterResponse env resp pre fs0).events =
      (bytesSums 0 resp.chunks).map
        (fun s => if 0 < resp.contentLength then
          pyProgress s resp.contentLength else 0) := by
  have hw := progOf_writeChunks resp.contentLength resp.chunks 0
  cases hz : env.isZip (writeChunks resp.contentLength resp.chunks 0).2 with
  | true =>
    rw [afterResponse_ok env resp pre fs0 hct hz]
    simp only [progOf, List.filterMap_append, List.filterMap_cons] at hpre hw ⊢
    by_cases hd : fs0.targetDir.isSome <;> simp [hpre, hw, hd]
  | false =>
    rw [afterResponse_corrupt env resp pre fs0 hct hz]
    simp only [progOf, List.filterMap_append, List.filterMap_cons] at hpre hw ⊢
    simp [hpre, hw]

/-- C1 counterexample: at content-length 100 with body chunks of 29 and 71
bytes, the program's first progress value is `int((29/100) * 100)` — which
under IEEE-754 binary64 is `int(28.999999999999996) = 28` — while the
claim's formula `floor(bytesWritten / contentLength * 100)` demands 29 at
the same point.  The trace emits `[28, 100]`; the claimed floors are
`[29, 100]`. -/
theorem C1_counterexample :
    progOf (Updater.run envLen100 "u" fsEmpty).events = [28, 100] ∧
    (bytesSums 0 envLen100.resp1.chunks).map
      (fun s => s * 100 / envLen100.resp1.contentLength) = [29, 100] := by
  refine ⟨by decide, by decide⟩

/-- C1 amended: whenever the content-length header is present and positive
and the body delivers exactly that many bytes, both workers emit as progress
exactly the values `int((bytesWritten / contentLength) * 100)` computed in
IEEE-754 binary64 arithmetic (`pyProgress`, which can fall one below the
exact floor); the sequence is monotonically non-decreasing and its final
value is 100. -/
theorem C1_progress_float_monotone_final (env : DownloadEnv) (u : String)
    (fs0 : FsState)
    (hred : env.resp1.status ∉ redirectCodes)
    (hraise : ¬ raisesForStatus env.resp1.status)
    (hct : contentTypeOk env.resp1.contentType = true)
    (hlen : 0 < env.resp1.contentLength)
    (hsum : env.resp1.chunks.sum = env.resp1.contentLength) :
    progOf (Updater.run env u fs0).events =
      (bytesSums 0 env.resp1.chunks).map
        (fun s => pyProgress s env.resp1.contentLength) ∧
    List.Chain' (· ≤ ·) (progOf (Updater.run env u fs0).events) ∧
    (progOf (Updater.run env u fs0).events).getLast? = some 100 ∧
    progOf (APIUpdater.run env u fs0).events =
      progOf (Updater.run env u fs0).events := by
  rw [Updater.run_direct env u fs0 hred hraise, APIUpdater.run_ok env u fs0 hraise]
  rw [progOf_afterResponse env env.resp1 _ fs0 (by simp [progOf]) hct,
    progOf_afterResponse env env.resp1 _ fs0 (by simp [progOf]) hct]
  have hif : (fun s => if 0 < env.resp1.contentLength then
      pyProgress s env.resp1.contentLength else 0) =
      (fun s => pyProgress s env.resp1.contentLength) :=
    funext fun s => if_pos hlen
  rw [hif]
  refine ⟨rfl, ?_, ?_, rfl⟩
  · exact List.chain'_map_of_chain' _
      (fun a b h => pyProgress_mono env.resp1.contentLength a b hlen h)
      (bytesSums_chain' env.resp1.chunks 0)
  · rw [List.getLast?_map, bytesSums_getLast env.resp1.chunks 0 (by omega)]
    simp only [Option.map_some', Nat.zero_add, hsum]
    rw [pyProgress_self env.resp1.contentLength hlen]

/-- Witness for C1 (amended): a 2-byte download served in two 1-byte chunks
emits `[50, 100]`. -/
theorem C1_witness :
    progOf (Updater.run envDirectZip "u" fsEmpty).events = [50, 100] ∧
    (progOf (Updater.run envDirectZip "u" fsEmpty).events).getLast? =
      some 100 := by
  have h := C1_progress_float_monotone_final envDirectZip "u" fsEmpty
    (by decide) (by decide) (by decide) (by decide) (by decide)
  refine ⟨?_, h.2.2.1⟩
  rw [h.1]
  decide

theorem bytesSums_length (cs : List Nat) : ∀ d : Nat,
    (bytesSums d cs).length = (cs.filter (fun c => c != 0)).length := by
  induction cs with
  | nil => intro d; rfl
  | cons c cs ih =>
    intro d
    by_cases hc : c = 0
    · simp [bytesSums, List.filter_cons, hc, ih]
    · simp [bytesSums, List.filter_cons, hc, ih]

theorem map_const_zero (l : List Nat) :
    l.map (fun _ => (0 : Nat)) = List.replicate l.length 0 := by
  induction l with
  | nil => rfl
  | cons x l ih => simp [List.replicate, ih]

/-- C3 counterexample: with no content-length header and a body of two
nonempty chunks, the worker emits `0` twice — once per chunk — not the single
emission the claim asserts. -/
theorem C3_counterexample :
    envNoLength.resp1.contentLength = 0 ∧
    envNoLength.resp1.chunks = [1, 1] ∧
    progOf (Updater.run envNoLength "u" fsEmpty).events = [0, 0] ∧
    (progOf (Updater.run envNoLength "u" fsEmpty).events).length = 2 := by
  refine ⟨rfl, rfl, by decide, by decide⟩

/-- C3 amended: with no content-length (parsed total 0), both workers emit
the value 0 once per nonempty body chunk — so at least once when the body is
nonempty, and every emitted value is 0. -/
theorem C3_unknown_length_emits_zero_per_chunk (env : DownloadEnv) (u : String)
    (fs0 : FsState)
    (hred : env.resp1.status ∉ redirectCodes)
    (hraise : ¬ raisesForStatus env.resp1.status)
    (hct : contentTypeOk env.resp1.contentType = true)
    (hlen : env.resp1.contentLength = 0)
    (hchunk : ∃ c ∈ env.resp1.chunks, c ≠ 0) :
    progOf (Updater.run env u fs0).events =
      List.replicate ((env.resp1.chunks.filter (fun c => c != 0)).length) 0 ∧
    1 ≤ (env.resp1.chunks.filter (fun c => c != 0)).length ∧
    progOf (APIUpdater.run env u fs0).events =
      progOf (Updater.run env u fs0).events := by
  rw [Updater.run_direct env u fs0 hred hraise, APIUpdater.run_ok env u fs0 hraise]
  rw [progOf_afterResponse env env.resp1 _ fs0 (by simp [progOf]) hct,
    progOf_afterResponse env env.resp1 _ fs0 (by simp [progOf]) hct]
  have hif : (fun s => if 0 < env.resp1.contentLength then
      pyProgress s env.resp1.contentLength else 0) = (fun _ => (0 : Nat)) := by
    funext s
    rw [hlen]
    simp
  rw [hif, map_const_zero, bytesSums_length]
  refine ⟨rfl, ?_, rfl⟩
  obtain ⟨c, hcm, hc⟩ := hchunk
  have : c ∈ env.resp1.chunks.filter (fun c => c != 0) :=
    List.mem_filter.mpr ⟨hcm, by simpa using hc⟩
  have hne : env.resp1.chunks.filter (fun c => c != 0) ≠ [] := by
    intro hnil
    rw [hnil] at this
    simp at this
  have := List.length_pos.mpr hne
  omega

/-- Witness for C3 (amended) at the two-chunk unknown-length download. -/
theorem C3_witness :
    progOf (Updater.run envNoLength "u" fsEmpty).events = List.replicate 2 0 ∧
    progOf (APIUpdater.run envNoLength "u" fsEmpty).events =
      progOf (Updater.run envNoLength "u" fsEmpty).events := by
  have h := C3_unknown_length_emits_zero_per_chunk envNoLength "u" fsEmpty
    (by decide) (by decide) (by decide) rfl ⟨1, by decide, by decide⟩
  exact ⟨h.1, h.2.2⟩

theorem getReqsOf_writeChunks (t : Nat) (cs : List Nat) : ∀ d : Nat,
    getReqsOf (writeChunks t cs d).1 = [] := by
  induction cs with
  | nil => intro d; rfl
  | cons c cs ih =>
    intro d
    by_cases hc : c = 0
    · rw [writeChunks, if_pos hc]
      exact ih d
    · rw [writeChunks, if_neg hc]
      simp only [getReqsOf, List.filterMap_cons]
      simpa [getReqsOf] using ih (d + c)

theorem getReqsOf_afterResponse (env : DownloadEnv) (resp : HttpResponse)
    (pre : List Ev) (fs0 : FsState) :
    getReqsOf (afterResponse env resp pre fs0).events = getReqsOf pre := by
  have hw := getReqsOf_writeChunks resp.contentLength resp.chunks 0
  cases hct : contentTypeOk resp.contentType with
  | false =>
    rw [afterResponse_mismatch env resp pre fs0 hct]
    simp [getReqsOf, List.filterMap_append]
  | true =>
    cases hz : env.isZip (writeChunks resp.contentLength resp.chunks 0).2 with
    | true =>
      rw [afterResponse_ok env resp pre fs0 hct hz]
      simp only [getReqsOf, List.filterMap_append, List.filterMap_cons] at hw ⊢
      by_cases hd : fs0.targetDir.isSome <;> simp [hw, hd]
    | false =>
      rw [afterResponse_corrupt env resp pre fs0 hct hz]
      simp only [getReqsOf, List.filterMap_append, List.filterMap_cons] at hw ⊢
      simp [hw]

/-- C2 counterexample: the first response is a 302 with a Location; the
second request's final response has status 303 — not 2xx — yet the download
is not fatal: the run streams the body, extracts it and finishes with
success, because `raise_for_status` only raises on 4xx/5xx. -/
theorem C2_counterexample :
    envRedirect303.resp1.status = 302 ∧
    (envRedirect303.resp2 "https://cdn.example/pkg.zip").status = 303 ∧
    Updater.run envRedirect303 "u" fsEmpty =
      ⟨[Ev.getReq "u" false, Ev.getReq "https://cdn.example/pkg.zip" true,
        Ev.fileOpen, Ev.fileWrite 1, Ev.progressEmit 100, Ev.mkTargetDir,
        Ev.extractAll, Ev.finishedEmit true],
       ⟨some [1], some ["a.txt"]⟩⟩ := by
  refine ⟨rfl, rfl, by decide⟩

/-- C2 amended: on a redirect first response with a Location, the worker
issues exactly one further `session.get` to that location — with the HTTP
library's default redirect following left enabled on that second call — and
a 4xx/5xx status on the second response is fatal: the run ends with the
HTTP-status error and finished(false), and nothing is written. -/
theorem C2_one_more_get_fatal_on_4xx5xx (env : DownloadEnv) (u loc : String)
    (fs0 : FsState)
    (hred : env.resp1.status ∈ redirectCodes)
    (hloc : env.resp1.location = some loc) :
    getReqsOf (Updater.run env u fs0).events = [(u, false), (loc, true)] ∧
    (raisesForStatus (env.resp2 loc).status →
      Updater.run env u fs0 =
        ⟨[Ev.getReq u false, Ev.getReq loc true,
          Ev.errorEmit (DlError.httpStatus (env.resp2 loc).status),
          Ev.finishedEmit false], fs0⟩) := by
  constructor
  · by_cases hra : raisesForStatus (env.resp2 loc).status
    · rw [Updater.run_redirected_raise env u loc fs0 hred hloc hra]
      simp [getReqsOf, List.filterMap_cons]
    · rw [Updater.run_redirected env u loc fs0 hred hloc hra]
      rw [getReqsOf_afterResponse]
      simp [getReqsOf, List.filterMap_cons]
  · intro hra
    exact Updater.run_redirected_raise env u loc fs0 hred hloc hra

/-- Witness for C2 (amended): a 302 first response redirecting to a location
whose second response is a 404. -/
theorem C2_witness :
    getReqsOf (Updater.run envRedirect404 "u" fsEmpty).events =
      [("u", false), ("https://cdn.example/pkg.zip", true)] ∧
    Updater.run envRedirect404 "u" fsEmpty =
      ⟨[Ev.getReq "u" false, Ev.getReq "https://cdn.example/pkg.zip" true,
        Ev.errorEmit (DlError.httpStatus 404), Ev.finishedEmit false],
       fsEmpty⟩ := by
  have h := C2_one_more_get_fatal_on_4xx5xx envRedirect404 "u"
    "https://cdn.example/pkg.zip" fsEmpty (by decide) rfl
  exact ⟨h.1, h.2 (by decide)⟩

theorem getLast?_append_two (A : List Ev) (a b : Ev) :
    (A ++ [a, b]).getLast? = some b := by
  have h : A ++ [a, b] = (A ++ [a]) ++ [b] := by simp
  rw [h, List.getLast?_concat]

theorem rm_not_mem_writeChunks (t : Nat) (cs : List Nat) (d : Nat) :
    Ev.rmTargetDir ∉ (writeChunks t cs d).1 := by
  intro h
  rcases writeChunks_shape t cs d _ h with ⟨n, hn⟩ | ⟨p, hp⟩ <;> simp_all

theorem mk_not_mem_writeChunks (t : Nat) (cs : List Nat) (d : Nat) :
    Ev.mkTargetDir ∉ (writeChunks t cs d).1 := by
  intro h
  rcases writeChunks_shape t cs d _ h with ⟨n, hn⟩ | ⟨p, hp⟩ <;> simp_all

theorem extract_not_mem_writeChunks (t : Nat) (cs : List Nat) (d : Nat) :
    Ev.extractAll ∉ (writeChunks t cs d).1 := by
  intro h
  rcases writeChunks_shape t cs d _ h with ⟨n, hn⟩ | ⟨p, hp⟩ <;> simp_all

/-- C6: when a download succeeds end to end and the target folder already
exists, both workers remove it, recreate it and only then extract — the
trace contains remove, create, extract in that order — and the resulting
folder holds exactly the archive's entries, so a file of the old install
that is not in the new archive is gone. -/
theorem C6_existing_install_fully_replaced (env : DownloadEnv) (u : String)
    (fs0 : FsState) (old : List String) (f : String)
    (hred : env.resp1.status ∉ redirectCodes)
    (hraise : ¬ raisesForStatus env.resp1.status)
    (hct : contentTypeOk env.resp1.contentType = true)
    (hzip : env.isZip
      (writeChunks env.resp1.contentLength env.resp1.chunks 0).2 = true)
    (hdir : fs0.targetDir = some old)
    (_hf : f ∈ old)
    (hnew : f ∉ env.archiveEntries) :
    List.Sublist [Ev.rmTargetDir, Ev.mkTargetDir, Ev.extractAll]
      (Updater.run env u fs0).events ∧
    (Updater.run env u fs0).fs.targetDir = some env.archiveEntries ∧
    (∀ contents, (Updater.run env u fs0).fs.targetDir = some contents →
      f ∉ contents) ∧
    List.Sublist [Ev.rmTargetDir, Ev.mkTargetDir, Ev.extractAll]
      (APIUpdater.run env u fs0).events ∧
    (APIUpdater.run env u fs0).fs.targetDir = some env.archiveEntries ∧
    (∀ contents, (APIUpdater.run env u fs0).fs.targetDir = some contents →
      f ∉ contents) := by
  have hds : fs0.targetDir.isSome = true := by rw [hdir]; rfl
  have hsub : ∀ A : List Ev,
      List.Sublist [Ev.rmTargetDir, Ev.mkTargetDir, Ev.extractAll]
        ((A ++ (if fs0.targetDir.isSome then [Ev.rmTargetDir, Ev.mkTargetDir]
          else [Ev.mkTargetDir])) ++ [Ev.extractAll, Ev.finishedEmit true]) := by
    intro A
    rw [hds]
    simp only [if_true]
    rw [List.append_assoc]
    have h : List.Sublist [Ev.rmTargetDir, Ev.mkTargetDir, Ev.extractAll]
        ([Ev.rmTargetDir, Ev.mkTargetDir] ++ [Ev.extractAll, Ev.finishedEmit true]) :=
      List.sublist_append_left
        [Ev.rmTargetDir, Ev.mkTargetDir, Ev.extractAll] [Ev.finishedEmit true]
    exact h.trans (List.sublist_append_right A _)
  rw [Updater.run_direct env u fs0 hred hraise, APIUpdater.run_ok env u fs0 hraise,
    afterResponse_ok env env.resp1 _ fs0 hct hzip,
    afterResponse_ok env env.resp1 _ fs0 hct hzip]
  refine ⟨hsub _, rfl, ?_, hsub _, rfl, ?_⟩ <;>
    · intro contents hc
      obtain rfl : env.archiveEntries = contents := Option.some.inj hc
      exact hnew

/-- Witness for C6: materialising over an install containing `old.txt` with
an archive containing only `new.txt` removes the old folder first and leaves
exactly the archive contents. -/
theorem C6_witness :
    List.Sublist [Ev.rmTargetDir, Ev.mkTargetDir, Ev.extractAll]
      (Updater.run envGoodZip "u" fsOld).events ∧
    (Updater.run envGoodZip "u" fsOld).fs.targetDir = some ["new.txt"] := by
  have h := C6_existing_install_fully_replaced envGoodZip "u" fsOld
    ["old.txt"] "old.txt" (by decide) (by decide) (by decide) (by decide)
    rfl (by decide) (by decide)
  exact ⟨h.1, h.2.1⟩

/-- C10: when the downloaded temp file fails `zipfile.is_zipfile`, both
workers emit the corrupt-archive error and finished(false) without touching
the target folder: no remove, create or extract event appears in the trace
and the target directory is exactly the initial one. -/
theorem C10_corrupt_archive_preserves_install (env : DownloadEnv) (u : String)
    (fs0 : FsState)
    (hred : env.resp1.status ∉ redirectCodes)
    (hraise : ¬ raisesForStatus env.resp1.status)
    (hct : contentTypeOk env.resp1.contentType = true)
    (hzip : env.isZip
      (writeChunks env.resp1.contentLength env.resp1.chunks 0).2 = false) :
    (Updater.run env u fs0).fs.targetDir = fs0.targetDir ∧
    Ev.rmTargetDir ∉ (Updater.run env u fs0).events ∧
    Ev.mkTargetDir ∉ (Updater.run env u fs0).events ∧
    Ev.extractAll ∉ (Updater.run env u fs0).events ∧
    Ev.errorEmit DlError.corruptArchive ∈ (Updater.run env u fs0).events ∧
    (Updater.run env u fs0).events.getLast? = some (Ev.finishedEmit false) ∧
    (APIUpdater.run env u fs0).fs.targetDir = fs0.targetDir ∧
    Ev.rmTargetDir ∉ (APIUpdater.run env u fs0).events ∧
    Ev.mkTargetDir ∉ (APIUpdater.run env u fs0).events ∧
    Ev.extractAll ∉ (APIUpdater.run env u fs0).events ∧
    Ev.errorEmit DlError.corruptArchive ∈ (APIUpdater.run env u fs0).events := by
  have hrm := rm_not_mem_writeChunks env.resp1.contentLength env.resp1.chunks 0
  have hmk := mk_not_mem_writeChunks env.resp1.contentLength env.resp1.chunks 0
  have hex := extract_not_mem_writeChunks env.resp1.contentLength env.resp1.chunks 0
  rw [Updater.run_direct env u fs0 hred hraise, APIUpdater.run_ok env u fs0 hraise,
    afterResponse_corrupt env env.resp1 _ fs0 hct hzip,
    afterResponse_corrupt env env.resp1 _ fs0 hct hzip]
  refine ⟨rfl, ?_, ?_, ?_, ?_, getLast?_append_two _ _ _, rfl, ?_, ?_, ?_, ?_⟩ <;>
    simp [List.mem_append, List.mem_cons, hrm, hmk, hex]

/-- Witness for C10: a completed download that is not a valid zip leaves the
existing install `old.txt` untouched and reports the corrupt-archive error. -/
theorem C10_witness :
    (Updater.run envBadZip "u" fsOld).fs.targetDir = fsOld.targetDir ∧
    Ev.rmTargetDir ∉ (Updater.run envBadZip "u" fsOld).events ∧
    Ev.errorEmit DlError.corruptArchive ∈ (Updater.run envBadZip "u" fsOld).events := by
  have h := C10_corrupt_archive_preserves_install envBadZip "u" fsOld
    (by decide) (by decide) (by decide) (by decide)
  exact ⟨h.1, h.2.1, h.2.2.2.2.1⟩
